import Mathlib

/-!
Verification of the XDP packet-navigation layer of `redbpf-probes`
(`src/redbpf-probes/src/xdp.rs`).

The embedding models addresses as natural numbers.  A packet is its
`xdp_md` bounds (`data`, `data_end`, both `u32` in the kernel ABI)
together with address-indexed readers for the protocol-header fields the
code dereferences (`ethhdr.h_proto`, `iphdr.ihl()`, `iphdr.protocol`,
`tcphdr.doff()`).  The 4-bit bitfield getters generated for `ihl` and
`doff` mask their storage to 4 bits, which the model renders as `% 16`
at the read site.  Where the source subtracts `u32` values (packet
length, `Data::offset`, `Data::len`, `MapData::payload`), the model uses
wrapping 32-bit subtraction `wsub32`, matching release-mode Rust.
-/

namespace RedBpf

/-- Value of `sizeof(ethhdr)`: two 6-byte MAC addresses plus the 16-bit `h_proto`. -/
def sizeof_ethhdr : Nat := 14

/-- Value of `sizeof(iphdr)`: the fixed 20-byte IPv4 header. -/
def sizeof_iphdr : Nat := 20

/-- Value of `sizeof(tcphdr)`: the fixed 20-byte TCP header. -/
def sizeof_tcphdr : Nat := 20

/-- Value of `sizeof(udphdr)`: the 8-byte UDP header. -/
def sizeof_udphdr : Nat := 8

/-- The IPv4 EtherType constant `ETH_P_IP`. -/
def ETH_P_IP : Nat := 0x0800

/-- Conversion `u16::from_be` on the little-endian bpfel target: swap the two bytes. -/
def u16_from_be (x : Nat) : Nat := (x % 256) * 256 + (x / 256) % 256

/-- Value of `IPPROTO_TCP`. -/
def IPPROTO_TCP : Nat := 6

/-- Value of `IPPROTO_UDP`. -/
def IPPROTO_UDP : Nat := 17

/-- One past the largest `u32`. -/
def two32 : Nat := 2 ^ 32

/-- Wrapping 32-bit subtraction, the behaviour of release-mode `u32` `-`. -/
def wsub32 (a b : Nat) : Nat := (a + (two32 - b % two32)) % two32

/-- The `xdp_md` context record: the packet buffer bounds `[data, data_end)`. -/
structure xdp_md where
  data : Nat
  data_end : Nat
deriving DecidableEq, Repr

/-- The packet as the XDP program sees it: the `xdp_md` bounds plus the
header fields the parser reads, each indexed by the address of the header
holding it.  `h_proto` is the raw 16-bit EtherType field of an `ethhdr`
at the given address (network byte order as stored); `ihl` and `protocol`
are the IHL bitfield storage and the 8-bit protocol of an `iphdr`; `doff`
is the data-offset bitfield storage of a `tcphdr`. -/
structure Packet where
  ctx : xdp_md
  h_proto : Nat → Nat
  ihl : Nat → Nat
  protocol : Nat → Nat
  doff : Nat → Nat

/-- Type `Transport`: tagged union over the TCP / UDP header pointer. -/
inductive Transport where
  | TCP : Nat → Transport
  | UDP : Nat → Transport
deriving DecidableEq, Repr

/-- Operation `XdpContext::len`: `ctx.data_end - ctx.data` as `u32` subtraction. -/
def XdpContext.len (p : Packet) : Nat := wsub32 p.ctx.data_end p.ctx.data

/-- Operation `XdpContext::eth`: return the `ethhdr` pointer `ctx.data` unless
`eth.add(1)` lies past `data_end`. -/
def XdpContext.eth (p : Packet) : Option Nat :=
  let eth := p.ctx.data
  if eth + sizeof_ethhdr > p.ctx.data_end then none else some eth

/-- Operation `XdpContext::ip`: require `eth()`, require `h_proto` to equal
`u16::from_be(ETH_P_IP as u16)`, then bounds-check one `iphdr` placed
one `ethhdr` past `data`. -/
def XdpContext.ip (p : Packet) : Option Nat :=
  (XdpContext.eth p).bind fun eth =>
    if p.h_proto eth ≠ u16_from_be ETH_P_IP then none
    else
      let ip := eth + sizeof_ethhdr
      if ip + sizeof_iphdr > p.ctx.data_end then none
      else some ip

/-- Operation `XdpContext::transport`: advance `ihl() * 4` bytes past the `iphdr`,
dispatch on `protocol`, and bounds-check the matched fixed header size. -/
def XdpContext.transport (p : Packet) : Option Transport :=
  (XdpContext.ip p).bind fun ip =>
    let base := ip + (p.ihl ip % 16) * 4
    let dispatched : Option (Transport × Nat) :=
      if p.protocol ip = IPPROTO_TCP then some (Transport.TCP base, sizeof_tcphdr)
      else if p.protocol ip = IPPROTO_UDP then some (Transport.UDP base, sizeof_udphdr)
      else none
    dispatched.bind fun ts =>
      if base + ts.2 > p.ctx.data_end then none else some ts.1

/-- Type `Data`: the payload cursor, holding the `xdp_md` reference and `base`. -/
structure Data where
  ctx : xdp_md
  base : Nat
deriving DecidableEq, Repr

/-- Operation `XdpContext::data`: for TCP, check the fixed header fits, then skip
`(doff() - 5) * 4` option bytes when `doff() > 5`; for UDP take one
`udphdr` past the header; finally reject a cursor strictly past
`data_end`. -/
def XdpContext.data (p : Packet) : Option Data :=
  (XdpContext.transport p).bind fun t =>
    let obase : Option Nat :=
      match t with
      | Transport.TCP hdr =>
        if hdr + sizeof_tcphdr > p.ctx.data_end then none
        else
          let base0 := hdr + sizeof_tcphdr
          let data_offset := p.doff hdr % 16
          some (if data_offset > 5 then base0 + (data_offset - 5) * 4 else base0)
      | Transport.UDP hdr => some (hdr + sizeof_udphdr)
    obase.bind fun base =>
      if base > p.ctx.data_end then none
      else some { ctx := p.ctx, base := base }

/-- Operation `Data::offset`: `base as u32 - ctx.data`. -/
def Data.offset (d : Data) : Nat := wsub32 d.base d.ctx.data

/-- Operation `Data::len`: `ctx.data_end - base as u32`. -/
def Data.len (d : Data) : Nat := wsub32 d.ctx.data_end d.base

/-- Operation `Data::slice`: build the full remaining view `[base, data_end)` from
memory `mem`, then `full_slice.get(..len)`. -/
def Data.slice (d : Data) (mem : Nat → Nat) (len : Nat) : Option (List Nat) :=
  let full_slice := (List.range (Data.len d)).map (fun i => mem (d.base + i))
  if len ≤ full_slice.length then some (full_slice.take len) else none

/-- Type `MapData<T>`: the fixed fields of the record; the zero-size `payload`
array marks the address right after them. -/
structure MapData (T : Type) where
  data : T
  offset : Nat
  size : Nat

/-- Operation `MapData::with_payload`: store the three fields, no validation. -/
def MapData.with_payload {T : Type} (data : T) (offset size : Nat) : MapData T :=
  { data := data, offset := offset, size := size }

/-- Operation `MapData::new`: a record with no trailing payload. -/
def MapData.new {T : Type} (data : T) : MapData T :=
  MapData.with_payload data 0 0

/-- Operation `MapData::payload`: the view of `(size - offset) as usize` bytes
(wrapping `u32` subtraction) starting `offset` bytes past the record's
trailing-array address `payloadAddr`, read from memory `mem`. -/
def MapData.payload {T : Type} (m : MapData T) (mem : Nat → Nat) (payloadAddr : Nat) :
    List Nat :=
  let base := payloadAddr + m.offset
  (List.range (wsub32 m.size m.offset)).map (fun i => mem (base + i))

/-- Modelled from the spec: the flags value handed to the export channel,
carrying the key / CPU index and the count of trailing packet bytes to
append (`xdp_size`).  The `PerfMapFlags` struct lives in the maps module,
outside the sources examined here. -/
structure PerfMapFlags where
  index : Nat
  xdp_size : Nat
deriving DecidableEq, Repr

/-- The kernel constant selecting the current CPU as the key. -/
def BPF_F_CURRENT_CPU : Nat := 0xffffffff

/-- Modelled from the spec: `PerfMapFlags::with_xdp_size` keys the event
by the current CPU and sets the trailing-byte count. -/
def PerfMapFlags.with_xdp_size (size : Nat) : PerfMapFlags :=
  { index := BPF_F_CURRENT_CPU, xdp_size := size }

/-- The observable effect of one delegation to the base perf map: the
context, record and flags it was handed. -/
structure PerfEvent (T : Type) where
  ctx : xdp_md
  data : MapData T
  flags : PerfMapFlags

/-- Modelled from the spec: the base export channel consumes exactly the
context, record and flags it is handed; the model records that triple. -/
def PerfMapBase.insert_with_flags {T : Type} (ctx : xdp_md) (data : MapData T)
    (flags : PerfMapFlags) : PerfEvent T :=
  { ctx := ctx, data := data, flags := flags }

/-- Operation `PerfMap::insert`: delegate keyed by the current CPU with
`PerfMapFlags::with_xdp_size(data.size)`. -/
def PerfMap.insert {T : Type} (ctx : Packet) (data : MapData T) : PerfEvent T :=
  let size := data.size
  PerfMapBase.insert_with_flags ctx.ctx data (PerfMapFlags.with_xdp_size size)

/-- Operation `PerfMap::insert_with_flags`: overwrite `flags.xdp_size` with
`data.size`, then delegate. -/
def PerfMap.insert_with_flags {T : Type} (ctx : Packet) (data : MapData T)
    (flags : PerfMapFlags) : PerfEvent T :=
  PerfMapBase.insert_with_flags ctx.ctx data { flags with xdp_size := data.size }

/-! ### Arithmetic helpers -/

theorem wsub32_eq_sub {a b : Nat} (hb : b ≤ a) (ha : a < two32) : wsub32 a b = a - b := by
  unfold wsub32 two32 at *
  omega

theorem wsub32_self (a : Nat) : wsub32 a a = 0 := by
  unfold wsub32 two32
  omega

/-! ### Concrete packets used by witnesses -/

/-- A 42-byte packet: 14-byte Ethernet (IPv4) + 20-byte IPv4 (UDP, IHL 5)
+ 8-byte UDP header and no payload. -/
def pktUdp42 : Packet :=
  { ctx := { data := 0, data_end := 42 }
    h_proto := fun _ => 8
    ihl := fun _ => 5
    protocol := fun _ => 17
    doff := fun _ => 0 }

/-- A 100-byte buffer whose TCP header carries data-offset 8 (12 bytes of
options). -/
def pktTcp100 : Packet :=
  { ctx := { data := 0, data_end := 100 }
    h_proto := fun _ => 8
    ihl := fun _ => 5
    protocol := fun _ => 6
    doff := fun _ => 8 }

/-- A 10-byte buffer, shorter than one Ethernet header. -/
def pktShort10 : Packet :=
  { ctx := { data := 0, data_end := 10 }
    h_proto := fun _ => 8
    ihl := fun _ => 5
    protocol := fun _ => 17
    doff := fun _ => 0 }

/-! ### Inversion helpers for the accessor chain -/

theorem eth_some_iff (p : Packet) (e : Nat) :
    XdpContext.eth p = some e ↔
      e = p.ctx.data ∧ p.ctx.data + sizeof_ethhdr ≤ p.ctx.data_end := by
  unfold XdpContext.eth
  by_cases h : p.ctx.data + sizeof_ethhdr > p.ctx.data_end
  · rw [if_pos h]
    simp only [reduceCtorEq, false_iff]
    omega
  · rw [if_neg h]
    simp only [Option.some.injEq]
    omega

theorem eth_none_iff (p : Packet) :
    XdpContext.eth p = none ↔ ¬ p.ctx.data + sizeof_ethhdr ≤ p.ctx.data_end := by
  unfold XdpContext.eth
  by_cases h : p.ctx.data + sizeof_ethhdr > p.ctx.data_end
  · rw [if_pos h]
    simp only [true_iff]
    omega
  · rw [if_neg h]
    simp only [reduceCtorEq, false_iff]
    omega

theorem ip_some_iff (p : Packet) (i : Nat) :
    XdpContext.ip p = some i ↔
      p.ctx.data + sizeof_ethhdr ≤ p.ctx.data_end
      ∧ p.h_proto p.ctx.data = u16_from_be ETH_P_IP
      ∧ p.ctx.data + sizeof_ethhdr + sizeof_iphdr ≤ p.ctx.data_end
      ∧ i = p.ctx.data + sizeof_ethhdr := by
  unfold XdpContext.ip
  cases he : XdpContext.eth p with
  | none =>
    rw [eth_none_iff] at he
    simp only [Option.none_bind, reduceCtorEq, false_iff]
    intro hc
    exact he hc.1
  | some e =>
    have he2 := (eth_some_iff p e).1 he
    obtain ⟨rfl, hbound⟩ := he2
    simp only [Option.some_bind]
    by_cases hp : p.h_proto p.ctx.data = u16_from_be ETH_P_IP
    · rw [if_neg (by simpa using hp)]
      by_cases h2 : p.ctx.data + sizeof_ethhdr + sizeof_iphdr > p.ctx.data_end
      · rw [if_pos h2]
        simp only [reduceCtorEq, false_iff]
        omega
      · rw [if_neg h2]
        simp only [Option.some.injEq]
        constructor
        · intro h
          exact ⟨hbound, hp, by omega, h.symm⟩
        · intro h
          exact h.2.2.2.symm
    · rw [if_pos (by simpa using hp)]
      simp only [reduceCtorEq, false_iff]
      intro hc
      exact hp hc.2.1

theorem transport_some_iff (p : Packet) (t : Transport) :
    XdpContext.transport p = some t ↔
      ∃ i, XdpContext.ip p = some i ∧
        ((p.protocol i = IPPROTO_TCP
          ∧ t = Transport.TCP (i + (p.ihl i % 16) * 4)
          ∧ i + (p.ihl i % 16) * 4 + sizeof_tcphdr ≤ p.ctx.data_end)
        ∨ (p.protocol i = IPPROTO_UDP
          ∧ t = Transport.UDP (i + (p.ihl i % 16) * 4)
          ∧ i + (p.ihl i % 16) * 4 + sizeof_udphdr ≤ p.ctx.data_end)) := by
  unfold XdpContext.transport
  cases hi : XdpContext.ip p with
  | none => simp
  | some i =>
    simp only [Option.some_bind, Option.some.injEq, exists_eq_left']
    by_cases htcp : p.protocol i = IPPROTO_TCP
    · rw [if_pos htcp, Option.some_bind]
      dsimp only
      by_cases hb : i + (p.ihl i % 16) * 4 + sizeof_tcphdr > p.ctx.data_end
      · rw [if_pos hb]
        simp only [reduceCtorEq, false_iff]
        rintro (⟨_, _, hle⟩ | ⟨hudp2, _, _⟩)
        · omega
        · exact absurd (htcp.symm.trans hudp2) (by decide)
      · rw [if_neg hb]
        simp only [Option.some.injEq]
        constructor
        · intro h
          exact Or.inl ⟨htcp, h.symm, by omega⟩
        · rintro (⟨_, ht, _⟩ | ⟨hudp2, _, _⟩)
          · exact ht.symm
          · exact absurd (htcp.symm.trans hudp2) (by decide)
    · rw [if_neg htcp]
      by_cases hudp : p.protocol i = IPPROTO_UDP
      · rw [if_pos hudp, Option.some_bind]
        dsimp only
        by_cases hb : i + (p.ihl i % 16) * 4 + sizeof_udphdr > p.ctx.data_end
        · rw [if_pos hb]
          simp only [reduceCtorEq, false_iff]
          rintro (⟨htcp2, _, _⟩ | ⟨_, _, hle⟩)
          · exact htcp htcp2
          · omega
        · rw [if_neg hb]
          simp only [Option.some.injEq]
          constructor
          · intro h
            exact Or.inr ⟨hudp, h.symm, by omega⟩
          · rintro (⟨htcp2, _, _⟩ | ⟨_, ht, _⟩)
            · exact absurd htcp2 htcp
            · exact ht.symm
      · rw [if_neg hudp, Option.none_bind]
        simp only [reduceCtorEq, false_iff]
        rintro (⟨htcp2, _, _⟩ | ⟨hudp2, _, _⟩)
        · exact htcp htcp2
        · exact hudp hudp2

/-- C1: `transport()` returns `some t` exactly when `ip()` succeeds, the IP
protocol field is TCP or UDP, and the transport base — the IP header start
plus `ihl() * 4` bytes — plus the matched protocol's fixed header size stays
within `data_end`; the tag of `t` matches the protocol field, and any other
protocol value yields `none`. -/
theorem transport_spec (p : Packet) (t : Transport) :
    XdpContext.transport p = some t ↔
      ∃ i, XdpContext.ip p = some i ∧
        ((p.protocol i = IPPROTO_TCP
          ∧ t = Transport.TCP (i + (p.ihl i % 16) * 4)
          ∧ i + (p.ihl i % 16) * 4 + sizeof_tcphdr ≤ p.ctx.data_end)
        ∨ (p.protocol i = IPPROTO_UDP
          ∧ t = Transport.UDP (i + (p.ihl i % 16) * 4)
          ∧ i + (p.ihl i % 16) * 4 + sizeof_udphdr ≤ p.ctx.data_end)) :=
  transport_some_iff p t

theorem transport_spec_witness :
    XdpContext.transport pktUdp42 = some (Transport.UDP 34) :=
  (transport_spec pktUdp42 (Transport.UDP 34)).2
    ⟨14, by decide, Or.inr ⟨by decide, by decide, by decide⟩⟩

/-- C4: `eth()` returns `some` of `data` viewed as an `ethhdr` exactly when
`data + sizeof(ethhdr) <= data_end`, from that single bounds comparison
alone; in particular a buffer shorter than one Ethernet header yields
`none`. -/
theorem eth_spec (p : Packet) :
    XdpContext.eth p =
      (if p.ctx.data + sizeof_ethhdr ≤ p.ctx.data_end then some p.ctx.data else none)
    ∧ (p.ctx.data ≤ p.ctx.data_end → p.ctx.data_end < two32 →
        XdpContext.len p < sizeof_ethhdr → XdpContext.eth p = none) := by
  constructor
  · unfold XdpContext.eth
    by_cases h : p.ctx.data + sizeof_ethhdr > p.ctx.data_end
    · rw [if_pos h, if_neg (by omega)]
    · rw [if_neg h, if_pos (by omega)]
  · intro h1 h2 h3
    unfold XdpContext.len at h3
    rw [wsub32_eq_sub h1 h2] at h3
    unfold XdpContext.eth
    rw [if_pos (by omega)]

theorem eth_spec_witness : XdpContext.eth pktShort10 = none :=
  (eth_spec pktShort10).2 (by decide) (by decide) (by decide)

/-- C3: `ip()` returns `some i` exactly when `eth()` succeeds, the Ethernet
EtherType field equals IPv4 in network byte order, and the address one
Ethernet header past `data` plus `sizeof(iphdr)` stays within `data_end`;
moreover a non-IPv4 EtherType alone already forces `none`, so IP parsing is
never attempted over a non-IPv4 frame. -/
theorem ip_spec (p : Packet) :
    (∀ i, XdpContext.ip p = some i ↔
      XdpContext.eth p = some p.ctx.data
      ∧ p.h_proto p.ctx.data = u16_from_be ETH_P_IP
      ∧ p.ctx.data + sizeof_ethhdr + sizeof_iphdr ≤ p.ctx.data_end
      ∧ i = p.ctx.data + sizeof_ethhdr)
    ∧ (p.h_proto p.ctx.data ≠ u16_from_be ETH_P_IP → XdpContext.ip p = none) := by
  constructor
  · intro i
    rw [ip_some_iff, eth_some_iff]
    constructor
    · rintro ⟨h1, h2, h3, h4⟩
      exact ⟨⟨rfl, h1⟩, h2, h3, h4⟩
    · rintro ⟨⟨_, h1⟩, h2, h3, h4⟩
      exact ⟨h1, h2, h3, h4⟩
  · intro hne
    cases h : XdpContext.ip p with
    | none => rfl
    | some i => exact absurd ((ip_some_iff p i).1 h).2.1 hne

theorem ip_spec_witness : XdpContext.ip pktUdp42 = some 14 :=
  ((ip_spec pktUdp42).1 14).2 ⟨by decide, by decide, by decide, by decide⟩

/-- C2: for a TCP transport, `data()` first checks the fixed TCP header
fits (`none` otherwise), reads the 4-bit data-offset field `d`, advances
the cursor `(d - 5) * 4` bytes past the end of the fixed header when
`d > 5` (0 extra bytes when `d = 5`), and returns `some` exactly when the
cursor stays `<= data_end`; for a UDP transport the cursor is exactly one
`udphdr` past the UDP header start. -/
theorem data_spec (p : Packet) :
    (∀ hdr, XdpContext.transport p = some (Transport.TCP hdr) →
      XdpContext.data p =
        (if hdr + sizeof_tcphdr ≤ p.ctx.data_end then
          (if hdr + sizeof_tcphdr
                + (if 5 < p.doff hdr % 16 then (p.doff hdr % 16 - 5) * 4 else 0)
              ≤ p.ctx.data_end then
            some { ctx := p.ctx,
                   base := hdr + sizeof_tcphdr
                     + (if 5 < p.doff hdr % 16 then (p.doff hdr % 16 - 5) * 4 else 0) }
          else none)
         else none))
    ∧ (∀ hdr, XdpContext.transport p = some (Transport.UDP hdr) →
        XdpContext.data p = some { ctx := p.ctx, base := hdr + sizeof_udphdr }) := by
  constructor
  · intro hdr ht
    unfold XdpContext.data
    rw [ht, Option.some_bind]
    dsimp only
    have hbase :
        (if 5 < p.doff hdr % 16
         then hdr + sizeof_tcphdr + (p.doff hdr % 16 - 5) * 4
         else hdr + sizeof_tcphdr)
          = hdr + sizeof_tcphdr
            + (if 5 < p.doff hdr % 16 then (p.doff hdr % 16 - 5) * 4 else 0) := by
      split <;> omega
    by_cases h1 : hdr + sizeof_tcphdr > p.ctx.data_end
    · rw [if_pos h1, Option.none_bind]
      rw [if_neg (show ¬ hdr + sizeof_tcphdr ≤ p.ctx.data_end by omega)]
    · rw [if_neg h1, Option.some_bind, hbase]
      split_ifs <;> first | rfl | omega
  · intro hdr ht
    have h8 : hdr + sizeof_udphdr ≤ p.ctx.data_end := by
      obtain ⟨i, hi, (⟨_, habs, _⟩ | ⟨_, heq, hle⟩)⟩ :=
        (transport_some_iff p (Transport.UDP hdr)).1 ht
      · exact Transport.noConfusion habs
      · injection heq with h
        rw [h]
        exact hle
    unfold XdpContext.data
    rw [ht, Option.some_bind]
    dsimp only
    rw [Option.some_bind, if_neg (by omega)]

theorem data_spec_witness :
    XdpContext.data pktTcp100 = some { ctx := { data := 0, data_end := 100 }, base := 66 } :=
  (data_spec pktTcp100).1 34 (by decide)

theorem transport_addr_bounds (p : Packet) (t : Transport)
    (ht : XdpContext.transport p = some t) :
    (∀ hdr, t = Transport.TCP hdr →
      p.ctx.data ≤ hdr ∧ hdr + sizeof_tcphdr ≤ p.ctx.data_end)
    ∧ (∀ hdr, t = Transport.UDP hdr →
      p.ctx.data ≤ hdr ∧ hdr + sizeof_udphdr ≤ p.ctx.data_end) := by
  obtain ⟨i, hi, hcase⟩ := (transport_some_iff p t).1 ht
  obtain ⟨_, _, _, hieq⟩ := (ip_some_iff p i).1 hi
  constructor
  · intro hdr heq
    rcases hcase with ⟨_, hteq, hle⟩ | ⟨_, hteq, _⟩
    · rw [heq] at hteq
      injection hteq with hb
      subst hb
      exact ⟨by omega, hle⟩
    · rw [heq] at hteq
      exact Transport.noConfusion hteq
  · intro hdr heq
    rcases hcase with ⟨_, hteq, _⟩ | ⟨_, hteq, hle⟩
    · rw [heq] at hteq
      exact Transport.noConfusion hteq
    · rw [heq] at hteq
      injection hteq with hb
      subst hb
      exact ⟨by omega, hle⟩

theorem data_some_bounds (p : Packet) (d : Data) (h : XdpContext.data p = some d) :
    d.ctx = p.ctx ∧ p.ctx.data ≤ d.base ∧ d.base ≤ p.ctx.data_end := by
  unfold XdpContext.data at h
  cases ht : XdpContext.transport p with
  | none =>
    rw [ht, Option.none_bind] at h
    exact Option.noConfusion h
  | some t =>
    rw [ht, Option.some_bind] at h
    have hb := transport_addr_bounds p t ht
    cases t with
    | TCP hdr =>
      dsimp only at h
      obtain ⟨hlo, hhi⟩ := hb.1 hdr rfl
      rw [if_neg (show ¬ hdr + sizeof_tcphdr > p.ctx.data_end by omega),
        Option.some_bind] at h
      by_cases h2 :
          (if p.doff hdr % 16 > 5
           then hdr + sizeof_tcphdr + (p.doff hdr % 16 - 5) * 4
           else hdr + sizeof_tcphdr) > p.ctx.data_end
      · rw [if_pos h2] at h
        exact Option.noConfusion h
      · rw [if_neg h2] at h
        injection h with h
        subst h
        dsimp only
        refine ⟨rfl, ?_, ?_⟩
        · split <;> omega
        · omega
    | UDP hdr =>
      dsimp only at h
      obtain ⟨hlo, hhi⟩ := hb.2 hdr rfl
      rw [Option.some_bind, if_neg (show ¬ hdr + sizeof_udphdr > p.ctx.data_end by omega)] at h
      injection h with h
      subst h
      dsimp only
      exact ⟨rfl, by omega, by omega⟩

/-- C5: for every payload cursor successfully obtained from `data()`, the
cursor's `offset()` plus its `len()` equals the total packet length
`XdpContext::len()`, both recomputed from the context's bounds. -/
theorem data_len_offset_spec (p : Packet) (d : Data)
    (h : XdpContext.data p = some d) (h32 : p.ctx.data_end < two32) :
    Data.offset d + Data.len d = XdpContext.len p := by
  obtain ⟨hctx, h1, h2⟩ := data_some_bounds p d h
  unfold Data.offset Data.len XdpContext.len
  rw [hctx]
  rw [wsub32_eq_sub h1 (by omega), wsub32_eq_sub h2 h32, wsub32_eq_sub (by omega) h32]
  omega

theorem data_len_offset_spec_witness :
    Data.offset { ctx := { data := 0, data_end := 42 }, base := 42 }
      + Data.len { ctx := { data := 0, data_end := 42 }, base := 42 }
      = XdpContext.len pktUdp42 :=
  data_len_offset_spec pktUdp42
    { ctx := { data := 0, data_end := 42 }, base := 42 } (by decide) (by decide)

/-- C6: `slice(n)` returns `none` exactly when `n` exceeds `len()`,
and otherwise exactly the `n`-byte prefix of the remaining region
`[base, data_end)` — never a shorter slice. -/
theorem slice_spec (d : Data) (mem : Nat → Nat) (n : Nat) :
    Data.slice d mem n =
      (if n ≤ Data.len d then some ((List.range n).map fun i => mem (d.base + i))
       else none) := by
  unfold Data.slice
  simp only [List.length_map, List.length_range]
  by_cases h : n ≤ Data.len d
  · rw [if_pos h, if_pos h, ← List.map_take, List.take_range, Nat.min_eq_left h]
  · rw [if_neg h, if_neg h]

/-- C9: a payload cursor that lands exactly on `data_end` is accepted —
the rejection test is strict — and its `len()` is 0, for the UDP and the
TCP branch alike. -/
theorem data_end_cursor_spec (p : Packet) :
    (∀ hdr, XdpContext.transport p = some (Transport.UDP hdr) →
        hdr + sizeof_udphdr = p.ctx.data_end →
        XdpContext.data p = some { ctx := p.ctx, base := p.ctx.data_end }
        ∧ Data.len { ctx := p.ctx, base := p.ctx.data_end } = 0)
    ∧ (∀ hdr, XdpContext.transport p = some (Transport.TCP hdr) →
        hdr + sizeof_tcphdr
            + (if 5 < p.doff hdr % 16 then (p.doff hdr % 16 - 5) * 4 else 0)
          = p.ctx.data_end →
        XdpContext.data p = some { ctx := p.ctx, base := p.ctx.data_end }
        ∧ Data.len { ctx := p.ctx, base := p.ctx.data_end } = 0) := by
  constructor
  · intro hdr ht heq
    refine ⟨?_, wsub32_self _⟩
    unfold XdpContext.data
    rw [ht, Option.some_bind]
    dsimp only
    rw [Option.some_bind, heq, if_neg (lt_irrefl _)]
  · intro hdr ht heq
    have hfit := ((transport_addr_bounds p _ ht).1 hdr rfl).2
    refine ⟨?_, wsub32_self _⟩
    unfold XdpContext.data
    rw [ht, Option.some_bind]
    dsimp only
    rw [if_neg (show ¬ hdr + sizeof_tcphdr > p.ctx.data_end by omega), Option.some_bind]
    have hbase :
        (if 5 < p.doff hdr % 16
         then hdr + sizeof_tcphdr + (p.doff hdr % 16 - 5) * 4
         else hdr + sizeof_tcphdr) = p.ctx.data_end := by
      rw [← heq]
      split <;> omega
    rw [hbase, if_neg (lt_irrefl _)]

theorem data_end_cursor_spec_witness :
    XdpContext.data pktUdp42 = some { ctx := { data := 0, data_end := 42 }, base := 42 }
    ∧ Data.len { ctx := { data := 0, data_end := 42 }, base := 42 } = 0 :=
  (data_end_cursor_spec pktUdp42).1 34 (by decide) (by decide)

/-- C7: a record built by `with_payload(d, offset, size)` with
`size >= offset` reads back, through `payload()`, exactly the bytes
`[offset, size)` of the region that follows the record's fixed fields —
a view of length `size - offset` starting `offset` bytes past them. -/
theorem payload_spec {T : Type} (data : T) (offset size : Nat) (mem : Nat → Nat)
    (payloadAddr : Nat) (hos : offset ≤ size) (h32 : size < two32) :
    MapData.payload (MapData.with_payload data offset size) mem payloadAddr
      = (List.range (size - offset)).map fun i => mem (payloadAddr + offset + i) := by
  unfold MapData.payload MapData.with_payload
  dsimp only
  rw [wsub32_eq_sub hos h32]

theorem payload_spec_witness :
    MapData.payload (MapData.with_payload 0 4 20) (fun a => a) 100
      = (List.range 16).map (fun i => 100 + 4 + i) :=
  payload_spec 0 4 20 (fun a => a) 100 (by decide) (by decide)

/-- C10: `with_payload` stores any pair of `u32` fields unvalidated, and
when `offset > size` the `payload()` view's length is the wrapping 32-bit
subtraction `(size - offset) mod 2^32 = 2^32 - (offset - size)` — a huge
count, not an error and not an empty slice. -/
theorem with_payload_unchecked {T : Type} (data : T) (offset size : Nat)
    (mem : Nat → Nat) (payloadAddr : Nat) :
    (MapData.with_payload data offset size).offset = offset
    ∧ (MapData.with_payload data offset size).size = size
    ∧ (size < offset → offset < two32 →
        (MapData.payload (MapData.with_payload data offset size) mem payloadAddr).length
          = two32 - (offset - size)) := by
  refine ⟨rfl, rfl, fun h1 h2 => ?_⟩
  unfold MapData.payload MapData.with_payload
  dsimp only
  simp only [List.length_map, List.length_range]
  unfold wsub32 two32 at *
  omega

theorem with_payload_unchecked_witness :
    (MapData.payload (MapData.with_payload 0 5 3) (fun a => a) 0).length
      = two32 - 2 :=
  (with_payload_unchecked 0 5 3 (fun a => a) 0).2.2 (by decide) (by decide)

/-- C8: both perf-map insert operations hand the base map flags whose
trailing-byte count `xdp_size` equals the record's `size` field — the
explicit-flags form overwrites the caller's value — together with the
unmodified record. -/
theorem insert_flags_spec {T : Type} (ctx : Packet) (data : MapData T)
    (flags : PerfMapFlags) :
    (PerfMap.insert_with_flags ctx data flags).flags.xdp_size = data.size
    ∧ (PerfMap.insert_with_flags ctx data flags).data = data
    ∧ (PerfMap.insert ctx data).flags.xdp_size = data.size
    ∧ (PerfMap.insert ctx data).data = data :=
  ⟨rfl, rfl, rfl, rfl⟩

end RedBpf
